import Mathlib

/-!
Shallow embedding of `a3_kadakia_111304945.py` (sentiment-analysis homework
script): corpus loading, word2vec feature extraction, Ridge regression sweep,
and the PCA user-factor stage, together with theorems settling the spec's
claims about them.

External library calls (pandas parsing, nltk tokenization, gensim word2vec
training, sklearn Ridge fitting / MAE / PCA eigen-fitting) are modelled as
abstract function parameters; everything the repository's own code computes
is embedded concretely.  Real numbers of the Python code are modelled as `ℚ`.
-/

namespace SentimentalAnalysis

/-! ## Corpus loader (`readCSV`, lines 18-53)

A CSV row as pandas delivers it to the loop: columns consumed positionally
are `[0]` item id, `[1]` rating, `[4]` user id, `[5]` review text.  A missing
review-text cell (pandas NaN) is `none`.  The source first runs
`replace("", np.nan)` on the `reviewText` column and then
`dropna(subset=["reviewText"])`, so both empty and missing texts are dropped
before the iteration loop. -/
structure Row where
  itemId : Int
  rating : Int
  userId : String
  reviewText : Option String
deriving Repr, DecidableEq

/-- `dataFile["reviewText"].replace("", np.nan)`: an empty-string review text
becomes missing. -/
def replaceEmptyWithNaN (t : Option String) : Option String :=
  match t with
  | some s => if s = "" then none else some s
  | none => none

/-- A row survives `dropna(subset=["reviewText"])` after the empty-string
replacement iff its review text is present and non-empty. -/
def keptRow (r : Row) : Bool :=
  (replaceEmptyWithNaN r.reviewText).isSome

/-- The review text appended for a retained row:
`word_tokenize(line[5].lower()) if type(line[5]) == str else ""`.
The tokenizer (nltk `word_tokenize`) is the abstract parameter `tok`.
After the dropna step the `else` branch is unreachable; the source would put
the empty string there, which we render as the empty token list. -/
def tokenizeField (tok : String → List String) (t : Option String) : List String :=
  match t with
  | some s => tok s.toLower
  | none => []

/-- `readCSV` (lines 18-53): drop empty/missing review texts, then iterate,
appending `int(line[0])` to `item_ids`, `int(line[1])` to `ratings` and the
tokenized lower-cased text to `reviews`; return `[item_ids, reviews, ratings]`.
Embedded as a left fold mirroring the row loop. -/
def readCSV (tok : String → List String) (rows : List Row) :
    List Int × List (List String) × List Int :=
  let cleaned := rows.filter keptRow
  cleaned.foldl
    (fun acc r =>
      (acc.1 ++ [r.itemId],
       acc.2.1 ++ [tokenizeField tok r.reviewText],
       acc.2.2 ++ [r.rating]))
    ([], [], [])

theorem readCSV_eq_maps (tok : String → List String) (rows : List Row) :
    readCSV tok rows =
      ((rows.filter keptRow).map Row.itemId,
       (rows.filter keptRow).map (fun r => tokenizeField tok r.reviewText),
       (rows.filter keptRow).map Row.rating) := by
  unfold readCSV
  generalize rows.filter keptRow = l
  induction l using List.reverseRecOn with
  | nil => rfl
  | append_singleton xs x ih => simp [List.foldl_append, ih]

/-- C5: the length bookkeeping.  Rows dropped are exactly those whose review
text is empty or missing. -/
theorem readCSV_length_eq (rows : List Row) :
    (rows.filter keptRow).length =
      rows.length - (rows.filter (fun r => ! keptRow r)).length := by
  have h := List.length_eq_length_filter_add (l := rows) keptRow
  omega

/-- C5: `readCSV` excludes exactly the rows whose review-text field is empty or
missing: the returned review list's length equals the row count minus the count
of such rows, the returned columns are the item ids, tokenized lower-cased
texts and ratings of precisely the retained rows (in order), and every
retained row's text is a present, non-empty string whose lower-casing is what
gets tokenized. -/
theorem readCSV_drops_exactly_empty (tok : String → List String) (rows : List Row) :
    ((readCSV tok rows).2.1.length =
        rows.length - (rows.filter (fun r => ! keptRow r)).length) ∧
    (readCSV tok rows).1 = (rows.filter keptRow).map Row.itemId ∧
    (readCSV tok rows).2.2 = (rows.filter keptRow).map Row.rating ∧
    ∀ r ∈ rows.filter keptRow, ∃ s, r.reviewText = some s ∧ s ≠ "" ∧
        tokenizeField tok r.reviewText = tok s.toLower := by
  refine ⟨?_, ?_, ?_, ?_⟩
  · rw [readCSV_eq_maps]
    simpa using readCSV_length_eq rows
  · rw [readCSV_eq_maps]
  · rw [readCSV_eq_maps]
  · intro r hr
    have hk : keptRow r = true := (List.mem_filter.mp hr).2
    unfold keptRow replaceEmptyWithNaN at hk
    match h : r.reviewText with
    | none => rw [h] at hk; simp at hk
    | some s =>
      rw [h] at hk
      by_cases hs : s = ""
      · simp [hs] at hk
      · exact ⟨s, rfl, hs, by simp [tokenizeField, h]⟩

/-- Sample tokenizer for witnesses: splits on spaces. -/
def tokEx (s : String) : List String := s.splitOn " "

/-- Sample rows for witnesses: one kept row, one empty-text row, one
missing-text row. -/
def rowsEx : List Row :=
  [⟨548, 5, "u1", some "Good Food"⟩,
   ⟨549, 1, "u2", some ""⟩,
   ⟨550, 3, "u3", none⟩]

theorem readCSV_drops_exactly_empty_witness :
    ((readCSV tokEx rowsEx).2.1.length =
        rowsEx.length - (rowsEx.filter (fun r => ! keptRow r)).length) ∧
    (∃ s, (Row.mk 548 5 "u1" (some "Good Food")).reviewText = some s ∧ s ≠ "" ∧
        tokenizeField tokEx (Row.mk 548 5 "u1" (some "Good Food")).reviewText =
          tokEx s.toLower) :=
  ⟨(readCSV_drops_exactly_empty tokEx rowsEx).1,
   (readCSV_drops_exactly_empty tokEx rowsEx).2.2.2
     ⟨548, 5, "u1", some "Good Food"⟩ (by decide)⟩

/-- C9: the three sequences returned by `readCSV` (item ids, tokenized
reviews, ratings) always have equal length: index `i` refers to the same
underlying retained row in all three. -/
theorem readCSV_parallel_lists (tok : String → List String) (rows : List Row) :
    (readCSV tok rows).1.length = (readCSV tok rows).2.1.length ∧
    (readCSV tok rows).2.1.length = (readCSV tok rows).2.2.length := by
  rw [readCSV_eq_maps]
  simp

/-! ## Feature extractor (`getFeatures`, lines 96-135)

The embedding space (`w2v_model.wv`) is an abstract map
`wv : String → Option (List ℚ)`: `wv w = some v` models
`w in w2v_model.wv.index2word` with vector `w2v_model.wv[w] = v`.

The source initializes `temp = [0] * 128` — a Python `list` — and then runs
`temp += w2v_model.wv[word]` for each in-vocabulary word.  In Python,
`list += ndarray` calls `list.__iadd__`, i.e. `list.extend`, which APPENDS the
array's 128 entries to the list; it does not add coordinate-wise.  So after
`m` matched words `temp` is the 128·(1+m)-element concatenation
`[0]*128 ++ v₁ ++ ... ++ v_m`, which is then divided element-wise by
`len(review)`.  The embedding reproduces exactly this.  `counter` is carried
because the source increments it, though only the commented-out
`train_x.append(temp/counter)` would have used it. -/

def embedDim : Nat := 128

/-- One iteration of `for word in review: if word in ...: temp += wv[word];
counter += 1`.  State is `(temp, counter)`. -/
def getFeaturesStep (wv : String → Option (List ℚ)) (st : List ℚ × Nat)
    (word : String) : List ℚ × Nat :=
  match wv word with
  | some v => (st.1 ++ v, st.2 + 1)
  | none => st

/-- `np.asarray(temp) / len(review)` applied to one entry.  A division by zero
(empty review) yields NaN on numpy arrays — no exception is raised; we render
the NaN/Inf outcome as `none`. -/
def pyDivScalar (x : ℚ) (n : Nat) : Option ℚ :=
  if n = 0 then none else some (x / (n : ℚ))

/-- The body of the `for review in reviews` loop: build `temp` from
`[0] * 128`, then append `temp/len(review)`. -/
def getFeaturesRow (wv : String → Option (List ℚ)) (review : List String) :
    List (Option ℚ) :=
  let st := review.foldl (getFeaturesStep wv) (List.replicate embedDim 0, 1)
  st.1.map (fun x => pyDivScalar x review.length)

/-- `getFeatures` (lines 96-135): one row per review. -/
def getFeatures (wv : String → Option (List ℚ))
    (reviews : List (List String)) : List (List (Option ℚ)) :=
  reviews.map (getFeaturesRow wv)

/-- Helper: the word loop leaves `temp` at its initial length plus 128 per
matched word, provided every vocabulary vector has length 128. -/
theorem getFeatures_foldl_length (wv : String → Option (List ℚ))
    (h : ∀ w v, wv w = some v → v.length = embedDim) :
    ∀ (review : List String) (st : List ℚ × Nat),
      (review.foldl (getFeaturesStep wv) st).1.length =
        st.1.length + embedDim * review.countP (fun w => (wv w).isSome) := by
  intro review
  induction review with
  | nil => intro st; simp
  | cons w ws ih =>
    intro st
    rw [List.foldl_cons, List.countP_cons, ih]
    unfold getFeaturesStep
    match hw : wv w with
    | some v =>
      have hv := h w v hw
      simp [hw, hv]
      ring
    | none => simp [hw]

/-- Helper: the feature row for a review has length
`128 · (1 + number of matched tokens)` — not 128. -/
theorem getFeaturesRow_length (wv : String → Option (List ℚ))
    (h : ∀ w v, wv w = some v → v.length = embedDim) (review : List String) :
    (getFeaturesRow wv review).length =
      embedDim * (1 + review.countP (fun w => (wv w).isSome)) := by
  unfold getFeaturesRow
  rw [List.length_map, getFeatures_foldl_length wv h]
  simp [embedDim]
  ring

/-- Sample embedding space for concrete evaluations: vocabulary {"good"},
mapped to the all-ones 128-vector. -/
def wvEx (w : String) : Option (List ℚ) :=
  if w = "good" then some (List.replicate embedDim 1) else none

/-- Every vector of the sample space has the embedding dimension. -/
theorem wvEx_dim : ∀ w v, wvEx w = some v → v.length = embedDim := by
  intro w v h
  unfold wvEx at h
  by_cases hw : w = "good"
  · rw [if_pos hw] at h
    cases h
    simp
  · rw [if_neg hw] at h
    cases h

set_option maxRecDepth 4000 in
/-- C2: refuted on the code.  For the one-token review `["good"]` whose token
is in vocabulary (embedding vector: all ones), the extractor does NOT return
the coordinate-wise sum divided by the token count (which would be the
128-vector of ones): because `temp` is a Python list, `temp += wv[word]`
extends it, and the returned row is the 256-entry concatenation
`([0]*128 ++ [1]*128) / 1`. -/
theorem getFeaturesRow_concatenates :
    getFeaturesRow wvEx ["good"] =
      List.replicate 128 (some (0:ℚ)) ++ List.replicate 128 (some 1) ∧
    (getFeaturesRow wvEx ["good"]).length = 256 := by
  have h1 : wvEx "good" = some (List.replicate embedDim 1) := by
    simp [wvEx]
  have hval : getFeaturesRow wvEx ["good"] =
      List.replicate 128 (some (0:ℚ)) ++ List.replicate 128 (some 1) := by
    unfold getFeaturesRow
    rw [List.foldl_cons, List.foldl_nil]
    unfold getFeaturesStep
    rw [h1]
    simp [pyDivScalar, List.map_append, List.map_replicate, embedDim]
  refine ⟨hval, ?_⟩
  rw [hval]
  simp

/-- C7: refuted on the code.  A non-empty review with one in-vocabulary and
one out-of-vocabulary token yields a 256-entry row, not a 128-entry one; the
dimension is respected only when NO token of the review is in vocabulary. -/
theorem getFeaturesRow_dim_violated :
    (getFeaturesRow wvEx ["good", "meh"]).length = 256 ∧
    (getFeaturesRow wvEx ["meh"]).length = 128 ∧ (256 : Nat) ≠ 128 := by
  refine ⟨?_, ?_, by decide⟩
  · rw [getFeaturesRow_length wvEx wvEx_dim]
    have : List.countP (fun w => (wvEx w).isSome) ["good", "meh"] = 1 := by
      simp [List.countP_cons, wvEx]
    rw [this]
    simp [embedDim]
  · rw [getFeaturesRow_length wvEx wvEx_dim]
    have : List.countP (fun w => (wvEx w).isSome) ["meh"] = 0 := by
      simp [List.countP_cons, wvEx]
    rw [this]
    simp [embedDim]

/-- C3: refuted on the code.  On a zero-token review the extractor raises
nothing: `np.asarray([0]*128) / 0` silently produces a 128-entry vector of
NaN (rendered `none`), for every embedding space. -/
theorem getFeaturesRow_empty_review_nan (wv : String → Option (List ℚ)) :
    getFeaturesRow wv [] = List.replicate embedDim none := by
  simp [getFeaturesRow, pyDivScalar, List.map_replicate]

/-! ## Rating predictor (`buildRatingPredictor`, lines 138-183)

`Ridge(random_state=42, alpha=C).fit(train_x, train_y)` and the subsequent
`MAE(test_y, model.predict(test_x))` / `ss.pearsonr` are external sklearn and
scipy calls: for fixed training and held-out data they are deterministic
functions of the candidate strength `C` alone, modelled by the abstract
parameters `mae` and `pearson`.  A fitted model is identified by its
candidate strength.  The sweep, selection threshold and tracked state are the
repository's own code and are embedded exactly. -/

/-- `listC = [0.0001, 0.001, 0.01, 0.1, 1, 10, 100, 1000, 10000]` (line 164). -/
def listC : List ℚ := [1/10000, 1/1000, 1/100, 1/10, 1, 10, 100, 1000, 10000]

/-- One iteration of the `for C in listC` loop.  State is
`(minAccuracy, bestModel, best_pearsonr)`; the update guard is
`acc < 1 and acc <= minAccuracy` (line 177). -/
def sweepStep (mae pearson : ℚ → ℚ) (st : ℚ × Option ℚ × ℚ) (C : ℚ) :
    ℚ × Option ℚ × ℚ :=
  let acc := mae C
  if acc < 1 ∧ acc ≤ st.1 then (acc, some C, pearson C) else st

/-- `buildRatingPredictor` (lines 138-183): sweep `listC` starting from
`minAccuracy = 1`, `bestModel = None`, `best_pearsonr = 0.35`, and return
`bestModel`. -/
def buildRatingPredictor (mae pearson : ℚ → ℚ) : Option ℚ :=
  (listC.foldl (sweepStep mae pearson) (1, none, 35/100)).2.1

/-- Invariant of the sweep fold: the tracked minimum never increases, stays
at most 1, equals the best model's MAE (strictly below 1) whenever a model is
tracked, and bounds the MAE of every processed candidate from below; a final
`none` means no processed candidate had MAE strictly below 1. -/
theorem sweepStep_foldl_spec (mae pearson : ℚ → ℚ) (l : List ℚ) :
    ∀ st : ℚ × Option ℚ × ℚ,
      (st.2.1 = none → st.1 = 1) →
      (∀ C, st.2.1 = some C → mae C = st.1 ∧ st.1 < 1) →
      st.1 ≤ 1 →
      ((l.foldl (sweepStep mae pearson) st).1 ≤ st.1) ∧
      ((l.foldl (sweepStep mae pearson) st).1 ≤ 1) ∧
      ((l.foldl (sweepStep mae pearson) st).2.1 = none →
        st.2.1 = none ∧ ∀ C ∈ l, ¬ mae C < 1) ∧
      (∀ C, (l.foldl (sweepStep mae pearson) st).2.1 = some C →
        mae C = (l.foldl (sweepStep mae pearson) st).1 ∧
        (l.foldl (sweepStep mae pearson) st).1 < 1 ∧
        (C ∈ l ∨ st.2.1 = some C)) ∧
      (∀ C ∈ l, (l.foldl (sweepStep mae pearson) st).1 ≤ mae C) := by
  induction l with
  | nil =>
    intro st hnone hsome hle
    refine ⟨le_refl _, hle, fun h => ⟨h, by simp⟩, fun C hC => ?_, by simp⟩
    obtain ⟨h1, h2⟩ := hsome C hC
    exact ⟨h1, h2, Or.inr hC⟩
  | cons C l ih =>
    intro st hnone hsome hle
    rw [List.foldl_cons]
    by_cases htr : mae C < 1 ∧ mae C ≤ st.1
    · have hst' : sweepStep mae pearson st C = (mae C, some C, pearson C) := by
        unfold sweepStep
        rw [if_pos htr]
      rw [hst']
      have ih' := ih (mae C, some C, pearson C)
        (by intro h; exact absurd h (by simp))
        (by intro C' hC'
            simp only [Option.some.injEq] at hC'
            subst hC'
            exact ⟨rfl, htr.1⟩)
        (le_of_lt htr.1)
      obtain ⟨ia, ib, ic, id, ie⟩ := ih'
      refine ⟨le_trans ia htr.2, ib, ?_, ?_, ?_⟩
      · intro h
        obtain ⟨habs, -⟩ := ic h
        exact absurd habs (by simp)
      · intro C' hC'
        obtain ⟨j1, j2, j3⟩ := id C' hC'
        refine ⟨j1, j2, Or.inl ?_⟩
        rcases j3 with h | h
        · exact List.mem_cons_of_mem _ h
        · simp only [Option.some.injEq] at h
          subst h
          exact List.mem_cons_self _ _
      · intro C' hC'
        rcases List.mem_cons.mp hC' with h | h
        · subst h; exact ia
        · exact ie C' h
    · have hst' : sweepStep mae pearson st C = st := by
        unfold sweepStep
        rw [if_neg htr]
      rw [hst']
      have ih' := ih st hnone hsome hle
      obtain ⟨ia, ib, ic, id, ie⟩ := ih'
      refine ⟨ia, ib, ?_, ?_, ?_⟩
      · intro h
        obtain ⟨h1, h2⟩ := ic h
        refine ⟨h1, fun C' hC' => ?_⟩
        rcases List.mem_cons.mp hC' with h3 | h3
        · subst h3
          intro hlt
          exact htr ⟨hlt, le_of_le_of_eq (le_of_lt hlt) (hnone h1).symm⟩
        · exact ic h |>.2 C' h3
      · intro C' hC'
        obtain ⟨j1, j2, j3⟩ := id C' hC'
        refine ⟨j1, j2, ?_⟩
        rcases j3 with h | h
        · exact Or.inl (List.mem_cons_of_mem _ h)
        · exact Or.inr h
      · intro C' hC'
        rcases List.mem_cons.mp hC' with h | h
        · subst h
          by_cases hm : mae C' < 1
          · have : st.1 < mae C' := by
              by_contra hcon
              exact htr ⟨hm, le_of_not_lt hcon⟩
            exact le_of_lt (lt_of_le_of_lt ia this)
          · exact le_trans ib (le_of_not_lt hm)
        · exact ie C' h

/-- C1: `buildRatingPredictor` returns `None` exactly when no candidate
strength in `listC` attains held-out MAE strictly below 1; when it returns a
model, that model's candidate is in `listC`, its held-out MAE is strictly
below 1 and is minimal among all nine candidates. -/
theorem buildRatingPredictor_spec (mae pearson : ℚ → ℚ) :
    (buildRatingPredictor mae pearson = none ↔ ∀ C ∈ listC, ¬ mae C < 1) ∧
    (∀ C, buildRatingPredictor mae pearson = some C →
      C ∈ listC ∧ mae C < 1 ∧ ∀ Cp ∈ listC, mae C ≤ mae Cp) := by
  have h := sweepStep_foldl_spec mae pearson listC (1, none, 35/100)
    (fun _ => rfl) (by intro C hC; cases hC) (le_refl 1)
  obtain ⟨-, -, hc, hd, he⟩ := h
  constructor
  · constructor
    · intro hnone
      exact (hc hnone).2
    · intro hall
      unfold buildRatingPredictor
      match hfin : (listC.foldl (sweepStep mae pearson) (1, none, 35/100)).2.1 with
      | none => rfl
      | some C =>
        obtain ⟨-, j2, j3⟩ := hd C hfin
        rcases j3 with hmem | habs
        · have := hd C hfin
          exact absurd (this.1 ▸ j2) (by
            intro hlt
            exact hall C hmem hlt)
        · cases habs
  · intro C hC
    obtain ⟨j1, j2, j3⟩ := hd C hC
    have hmem : C ∈ listC := by
      rcases j3 with h | h
      · exact h
      · cases h
    refine ⟨hmem, j1 ▸ j2, fun Cp hCp => ?_⟩
    rw [j1]
    exact he Cp hCp

/-- Sample MAE profile for the C1 witness: candidate 1 scores 0, all others 2. -/
def maeW (C : ℚ) : ℚ := if C = 1 then 0 else 2

/-- Sample Pearson profile for the C1 witness. -/
def pearsonW (_ : ℚ) : ℚ := 0

theorem buildRatingPredictor_spec_witness :
    (1:ℚ) ∈ listC ∧ maeW 1 < 1 ∧ ∀ Cp ∈ listC, maeW 1 ≤ maeW Cp :=
  (buildRatingPredictor_spec maeW pearsonW).2 1
    (by norm_num [buildRatingPredictor, listC, sweepStep, maeW, pearsonW,
          List.foldl_cons, List.foldl_nil])

/-! ## Main script (`__main__`, lines 267-303)

Argument handling (lines 271-279) and the filename-substring dispatch that
binds `train_w2v_model` / `test_w2v_model` (lines 289-299). -/

/-- Lines 271-279: `if len(sys.argv) < 3 or len(sys.argv) > 3` the script
silently falls back to `'food_train.csv'` / `'food_trial.csv'` (the usage
message and `sys.exit` are commented out in the source); otherwise it takes
`sys.argv[1]` and `sys.argv[2]`. -/
def parseArgs (argv : List String) : String × String :=
  if argv.length < 3 ∨ argv.length > 3 then ("food_train.csv", "food_trial.csv")
  else (argv.getD 1 "", argv.getD 2 "")

/-- C4: refuted on the code.  With too few (just the program name) or too
many positional arguments, the script substitutes the default filenames and
proceeds; no usage error is reported and no non-zero exit occurs. -/
theorem parseArgs_substitutes_defaults :
    parseArgs ["a3_kadakia_111304945.py"] = ("food_train.csv", "food_trial.csv") ∧
    parseArgs ["a3_kadakia_111304945.py", "a_train.csv", "a_trial.csv", "x"] =
      ("food_train.csv", "food_trial.csv") ∧
    parseArgs ["a3_kadakia_111304945.py", "a_train.csv", "a_trial.csv"] =
      ("a_train.csv", "a_trial.csv") := by
  decide

/-- Python's `sub in hay` on strings: `sub` occurs as a contiguous substring
of `hay`. -/
def containsTok : List Char → List Char → Bool
  | [], sub => sub.isPrefixOf []
  | c :: t, sub => sub.isPrefixOf (c :: t) || containsTok t sub

/-- `"sub" in trial_file` as the source writes it. -/
def pyIn (sub hay : String) : Bool := containsTok hay.toList sub.toList

/-- Lines 289-299: `train_w2v_model` is (re)bound with `min_count` 5, 10 or
20 according to which of `"food_"`, `"music_"`, `"musicAndPetsup_"` occurs in
`trial_file`; if none occurs, the name is never bound. -/
def selectMinCount (trial_file : String) : Option Nat :=
  let m0 : Option Nat := none
  let m1 := if pyIn "food_" trial_file then some 5 else m0
  let m2 := if pyIn "music_" trial_file then some 10 else m1
  if pyIn "musicAndPetsup_" trial_file then some 20 else m2

/-- A Python runtime failure of the main script. -/
inductive PyError where
  | nameError : PyError
deriving Repr, DecidableEq

/-- Lines 289-303: bind the embedding model by filename dispatch, then run
`getFeatures(train_w2v_model, ...)`.  Training (`trainWord2VecModel`) is the
abstract `wvOf`, mapping the selected `min_count` to the trained embedding
space.  If no dispatch case fired, the name `train_w2v_model` is unbound and
line 302 raises `NameError`. -/
def mainExtractStage (wvOf : Nat → String → Option (List ℚ))
    (trial_file : String) (reviews : List (List String)) :
    Except PyError (List (List (Option ℚ))) :=
  match selectMinCount trial_file with
  | none => .error .nameError
  | some k => .ok (getFeatures (wvOf k) reviews)

/-- C10: for every trial-file path containing none of `"food_"`, `"music_"`,
`"musicAndPetsup_"`, the script binds no embedding model and fails with an
unbound-name error at feature extraction — not with a configuration or usage
error. -/
theorem mainExtractStage_nameError (wvOf : Nat → String → Option (List ℚ))
    (trial_file : String) (reviews : List (List String))
    (h1 : pyIn "food_" trial_file = false)
    (h2 : pyIn "music_" trial_file = false)
    (h3 : pyIn "musicAndPetsup_" trial_file = false) :
    mainExtractStage wvOf trial_file reviews = .error .nameError := by
  unfold mainExtractStage selectMinCount
  rw [h1, h2, h3]
  simp

/-- Sample trained-model map for the C10 witness. -/
def wvOfEx (_ : Nat) : String → Option (List ℚ) := wvEx

theorem mainExtractStage_nameError_witness :
    pyIn "food_" "pets_trial.csv" = false ∧
    pyIn "music_" "pets_trial.csv" = false ∧
    pyIn "musicAndPetsup_" "pets_trial.csv" = false ∧
    mainExtractStage wvOfEx "pets_trial.csv" [["good"]] = .error .nameError :=
  ⟨by decide, by decide, by decide,
   mainExtractStage_nameError wvOfEx "pets_trial.csv" [["good"]]
     (by decide) (by decide) (by decide)⟩

/-! ## User-factor PCA (`runPCAMatrix`, lines 254-259)

`PCA(n_components=3).fit(...)` — the eigen decomposition — is an external
sklearn call, modelled by an abstract `fit` parameter producing a fitted
transform.  A fitted transform is what sklearn retains on the fitted object:
a per-coordinate mean and the component rows; `transform` is the concrete
affine map `(X - mean_) @ components_.T`, which is the repository-relevant
behaviour and is embedded concretely. -/

/-- A fitted principal-component transform: `mean_` and `components_`. -/
structure PCAModel where
  mean : List ℚ
  components : List (List ℚ)
deriving Repr, DecidableEq

/-- Dot product of two coordinate lists. -/
def dotQ (a b : List ℚ) : ℚ := (List.zipWith (· * ·) a b).sum

/-- sklearn `PCA.transform` on one row: center by `mean_`, then one dot
product per component row. -/
def pcaTransformRow (m : PCAModel) (x : List ℚ) : List ℚ :=
  m.components.map (fun c => dotQ (List.zipWith (· - ·) x m.mean) c)

/-- sklearn `PCA.transform` on a matrix: row-wise projection. -/
def pcaTransform (m : PCAModel) (xs : List (List ℚ)) : List (List ℚ) :=
  xs.map (pcaTransformRow m)

/-- `runPCAMatrix` (lines 254-259):
`user_PCA = PCA(n_components=3).fit(list(user_reps.values()))`,
`v_matrix = user_PCA.transform(list(user_reps.values()))`,
`return v_matrix`.  Only the projection matrix is returned; the fitted
`user_PCA` object is a local variable that goes out of scope. -/
def runPCAMatrix (fit : List (List ℚ) → PCAModel)
    (user_reps_values : List (List ℚ)) : List (List ℚ) :=
  let user_PCA := fit user_reps_values
  pcaTransform user_PCA user_reps_values

/-- Helper: every projected row has one coordinate per component row. -/
theorem pcaTransform_row_length (m : PCAModel) (xs : List (List ℚ)) :
    ∀ v ∈ pcaTransform m xs, v.length = m.components.length := by
  intro v hv
  obtain ⟨x, hx, rfl⟩ := List.mem_map.mp hv
  simp [pcaTransformRow]

/-- Sample fit for C6: ignores the data, centers at the origin. -/
def fitA (_ : List (List ℚ)) : PCAModel :=
  ⟨[0, 0], [[0, 0], [0, 0], [0, 0]]⟩

/-- Second sample fit for C6: a different fitted transform (different mean)
whose projections on the sample data coincide with `fitA`'s. -/
def fitB (_ : List (List ℚ)) : PCAModel :=
  ⟨[1, 1], [[0, 0], [0, 0], [0, 0]]⟩

/-- C6: refuted on the code.  `runPCAMatrix` does not return (or otherwise
retain) the fitted transform: two runs whose fitted transforms differ can
return identical values, so the return value cannot contain the transform.
Concretely, on the user matrix `[[1,0],[0,1]]` the fits `fitA` and `fitB`
produce distinct fitted transforms yet identical `runPCAMatrix` outputs. -/
theorem runPCAMatrix_discards_transform :
    runPCAMatrix fitA [[1, 0], [0, 1]] = runPCAMatrix fitB [[1, 0], [0, 1]] ∧
    fitA [[1, 0], [0, 1]] ≠ fitB [[1, 0], [0, 1]] := by
  constructor
  · norm_num [runPCAMatrix, pcaTransform, pcaTransformRow, dotQ, fitA, fitB]
  · intro h
    have := congrArg PCAModel.mean h
    simp [fitA, fitB] at this

/-- C6 as amended: `runPCAMatrix` fits the principal-component transform
exactly once, over all users' averaged vectors, and returns only each user's
projection through that transform (3-dimensional when the fit produced 3
component rows); the fitted transform itself is not returned. -/
theorem runPCAMatrix_projects (fit : List (List ℚ) → PCAModel)
    (reps : List (List ℚ)) (h3 : (fit reps).components.length = 3) :
    runPCAMatrix fit reps = pcaTransform (fit reps) reps ∧
    ∀ v ∈ runPCAMatrix fit reps, v.length = 3 := by
  refine ⟨rfl, fun v hv => ?_⟩
  have hlen := pcaTransform_row_length (fit reps) reps v hv
  rw [hlen, h3]

theorem runPCAMatrix_projects_witness :
    (fitA [[1, 0], [0, 1]]).components.length = 3 ∧
    runPCAMatrix fitA [[1, 0], [0, 1]] =
      pcaTransform (fitA [[1, 0], [0, 1]]) [[1, 0], [0, 1]] ∧
    ∀ v ∈ runPCAMatrix fitA [[1, 0], [0, 1]], v.length = 3 :=
  ⟨by simp [fitA],
   (runPCAMatrix_projects fitA [[1, 0], [0, 1]] (by simp [fitA])).1,
   (runPCAMatrix_projects fitA [[1, 0], [0, 1]] (by simp [fitA])).2⟩

/-- C8: projecting the same collection of averaged user vectors twice through
the same fitted transform yields identical results, and each projected vector
is a 3-vector when the transform has 3 component rows: `pcaTransform` is a
pure function of the retained transform and its input, with no hidden state
or randomness. -/
theorem pcaTransform_reuse_deterministic (m : PCAModel) (xs ys : List (List ℚ))
    (hxy : xs = ys) (h3 : m.components.length = 3) :
    pcaTransform m xs = pcaTransform m ys ∧
    ∀ v ∈ pcaTransform m xs, v.length = 3 := by
  subst hxy
  exact ⟨rfl, fun v hv => h3 ▸ pcaTransform_row_length m xs v hv⟩

/-- Sample fitted transform for the C8 witness. -/
def pcaModelEx : PCAModel := ⟨[0, 0], [[1, 0], [0, 1], [1, 1]]⟩

theorem pcaTransform_reuse_deterministic_witness :
    pcaTransform pcaModelEx [[2, 3]] = pcaTransform pcaModelEx [[2, 3]] ∧
    ∀ v ∈ pcaTransform pcaModelEx [[2, 3]], v.length = 3 :=
  pcaTransform_reuse_deterministic pcaModelEx [[2, 3]] [[2, 3]] rfl
    (by simp [pcaModelEx])

end SentimentalAnalysis
